import Mathlib

/-!
# Shallow embedding of the CRUD item service (`src/crud-service/main.py`)

The service persists a list of item records in one JSON file and exposes
CRUD handlers over it.  We embed:

* a record (`DbRec`) — a JSON object with the keys the service reads and
  writes.  JSON `null` is `Option.none` in the nullable fields; a missing
  `id` key is `DbRec.id = none` (the code reads it with `item.get('id', 0)`,
  so only presence/absence matters there).  Prices are JSON numbers,
  embedded as `ℚ`.
* the backing file (`FileState`) — absent, present-but-unparseable, or a
  parsed list of records.  `json.load` failures are all collapsed into
  `FileState.corrupt`, exactly the cases the `except (json.JSONDecodeError,
  IOError)` branch of `load_data` catches.
* the pydantic request models `ItemCreate` / `ItemUpdate` with FastAPI's
  validation, including the tri-state absent / explicit-null / value
  distinction (`Fld`) that `model_dump(exclude_unset=True)` exposes, and
* one Lean function per handler, translated line by line from the source.
-/

namespace CrudService

/-- A persisted item record, i.e. one JSON object of the stored list.
`id = none` models a record whose JSON object has no `id` key;
`name`/`description`/`price` are `none` when the stored value is JSON
`null` (the update handler can write `null` into any of them).
`created_at`/`updated_at` are ISO timestamp strings. -/
structure DbRec where
  id : Option Int
  name : Option String
  description : Option String
  price : Option ℚ
  created_at : String
  updated_at : String
deriving DecidableEq, Repr

instance : Inhabited DbRec :=
  ⟨{ id := none, name := none, description := none, price := none,
     created_at := "", updated_at := "" }⟩

/-- State of the backing JSON file (`DATA_FILE`) as the request handlers
range over it: `corrupt` is a file that exists but on which `json.load`
raises `JSONDecodeError` or `IOError`, and `valid` holds a parsed array
of record objects. This is the state space of the read-modify-write
cycle over service-written data; the full content space of an arbitrary
file — non-UTF-8 bytes, parseable non-record JSON — is modelled
separately by `RawFile` and `load_data_raw` below. -/
inductive FileState where
  | absent
  | corrupt
  | valid (data : List DbRec)
deriving DecidableEq, Repr

/-- Handler outcome, as FastAPI reports it to the client. -/
inductive Resp where
  | item (r : DbRec)            -- 200 with one record
  | items (rs : List DbRec)     -- 200 with the whole collection
  | created (r : DbRec)         -- 201 with the new record
  | noContent                   -- 204, empty body
  | notFound (item_id : Int)    -- 404 `HTTPException`
  | unprocessable               -- 422, pydantic validation failed
deriving DecidableEq, Repr

/-- `load_data`: read the file; a missing file or any `json.load` failure
yields the empty list (main.py lines 38-46). -/
def load_data : FileState → List DbRec
  | .absent => []
  | .corrupt => []
  | .valid data => data

/-- `save_data`: serialize `data` and overwrite the file (lines 48-51).
The post-state of a completed save is the valid file holding `data`. -/
def save_data (data : List DbRec) : FileState :=
  .valid data

/-- A parseable JSON document, as `json.load` returns it: the full JSON
value space, not only arrays of record objects. -/
inductive JsonVal where
  | null
  | bool (b : Bool)
  | num (q : ℚ)
  | str (s : String)
  | arr (elems : List JsonVal)
  | obj (fields : List (String × JsonVal))

/-- Raw content of an existing backing file, refined past `FileState`:
the file's bytes may not decode as UTF-8, may decode but not parse as
JSON, reading may fail with `IOError`, or the file may hold any
parseable JSON document (a record array or anything else). -/
inductive RawFile where
  | notUtf8
  | notJson
  | readError
  | json (j : JsonVal)

/-- An exception `load_data` lets escape to its caller.
`UnicodeDecodeError` (raised by `json.load` on a file whose bytes are
not valid UTF-8) is a `ValueError` but neither a `JSONDecodeError` nor
an `IOError`, so the `except` clause at main.py line 44 does not catch
it. -/
inductive PyErr where
  | unicodeDecodeError
deriving DecidableEq, Repr

/-- `load_data` (lines 38-46) over the raw file content, keeping its
exact `try`/`except` behavior: a missing file returns `[]`; a
`JSONDecodeError` (file text is not JSON) or `IOError` is caught and
returns `[]`; a non-UTF-8 file raises an uncaught `UnicodeDecodeError`;
and any successfully parsed JSON document — record array or not — is
returned verbatim, with no schema check. -/
def load_data_raw : Option RawFile → Except PyErr JsonVal
  | none => .ok (.arr [])
  | some .notUtf8 => .error .unicodeDecodeError
  | some .notJson => .ok (.arr [])
  | some .readError => .ok (.arr [])
  | some (.json j) => .ok j

/-- Whether a parsed JSON document is a structured document of records:
an array each of whose elements is a JSON object. -/
def isRecordDoc : JsonVal → Bool
  | .arr elems => elems.all fun e =>
      match e with
      | .obj _ => true
      | _ => false
  | _ => false

/-- Observable states of the backing file while `save_data` runs.
`open(DATA_FILE, 'w')` truncates the file in place before `json.dump`
writes anything, so mid-write the file exists with empty (hence
unparseable) content; after the dump completes it holds the new data.
There is no temp-file-and-rename step in the source. -/
def save_data_trace (data : List DbRec) : List FileState :=
  [.corrupt, .valid data]

/-- `get_next_id` (lines 53-57): `1` for the empty list, else
`max(item.get('id', 0) for item in data) + 1`. A record without an `id`
key contributes `0` to the maximum. -/
def get_next_id (data : List DbRec) : Int :=
  match data.map (fun item => item.id.getD 0) with
  | [] => 1
  | x :: xs => xs.foldl max x + 1

/-- A tri-state JSON body field: absent from the body, explicit `null`,
or a value. Pydantic's `model_fields_set` distinguishes `unset` from the
other two. -/
inductive Fld (α : Type) where
  | unset
  | null
  | val (v : α)
deriving DecidableEq, Repr

/-- A validated `ItemCreate` body: `name` and `price` are required and
non-null, `description` defaults to `None` whether absent or `null`. -/
structure ItemCreate where
  name : String
  description : Option String
  price : ℚ
deriving DecidableEq, Repr

/-- An `ItemUpdate` body before validation: each field may be absent,
explicitly `null`, or a value (main.py lines 27-30). -/
structure ItemUpdate where
  name : Fld String
  description : Fld String
  price : Fld ℚ
deriving DecidableEq, Repr

/-- `name` constraint of `ItemCreate`/`ItemUpdate`:
`min_length=1, max_length=100`. -/
def nameOk (s : String) : Bool :=
  1 ≤ s.length && s.length ≤ 100

/-- `description` constraint: `max_length=500`. -/
def descriptionOk (s : String) : Bool :=
  s.length ≤ 500

/-- `price` constraint: `gt=0`. -/
def priceOk (p : ℚ) : Bool :=
  0 < p

/-- Pydantic validation of one `Optional[...]` field of `ItemUpdate`:
absent and explicit `null` both pass (the annotation admits `None`; the
`Field` constraints apply only to the non-null branch of the union), a
value must satisfy the constraint. -/
def fldOk {α : Type} (ok : α → Bool) : Fld α → Bool
  | .unset => true
  | .null => true
  | .val v => ok v

/-- FastAPI's validation of a `PUT /items/{id}` body against `ItemUpdate`. -/
def itemUpdateValid (u : ItemUpdate) : Bool :=
  fldOk nameOk u.name && fldOk descriptionOk u.description && fldOk priceOk u.price

/-- A JSON value as it appears in `item_update.model_dump(exclude_unset=True)`. -/
inductive JVal where
  | null
  | str (s : String)
  | num (q : ℚ)
deriving DecidableEq, Repr

/-- The entry one tri-state field contributes to
`model_dump(exclude_unset=True)`: nothing when unset, its key with `null`
or with the value otherwise. -/
def fldDump {α : Type} (toJ : α → JVal) (key : String) : Fld α → List (String × JVal)
  | .unset => []
  | .null => [(key, .null)]
  | .val v => [(key, toJ v)]

/-- `item_update.model_dump(exclude_unset=True)` (line 117): the fields
that were present in the request body, in model-field order, with
explicit nulls kept as `null`. -/
def model_dump_exclude_unset (u : ItemUpdate) : List (String × JVal) :=
  fldDump .str "name" u.name
    ++ fldDump .str "description" u.description
    ++ fldDump .num "price" u.price

/-- One iteration of `for key, value in update_data.items():
existing_item[key] = value` (lines 119-120).  The dump only ever produces
the three model keys with values of the matching JSON type, so the
catch-all branch is unreachable from `model_dump_exclude_unset`. -/
def setKey (r : DbRec) (kv : String × JVal) : DbRec :=
  match kv with
  | ("name", .null) => { r with name := none }
  | ("name", .str s) => { r with name := some s }
  | ("description", .null) => { r with description := none }
  | ("description", .str s) => { r with description := some s }
  | ("price", .null) => { r with price := none }
  | ("price", .num q) => { r with price := some q }
  | _ => r

/-- `next((i for i, item in enumerate(data) if item.get('id') == item_id),
None)` (lines 110, 131): index of the first record whose `id` key equals
`item_id`.  A record without an `id` key never matches (`None == item_id`
is false for an integer `item_id`). -/
def firstIdxWhere {α : Type} (p : α → Bool) : List α → Option Nat
  | [] => none
  | a :: as => if p a then some 0 else (firstIdxWhere p as).map (· + 1)

/-- `POST /items` handler `create_item` (lines 69-87), after FastAPI has
validated the body against `ItemCreate`.  `now` is
`datetime.now().isoformat()`. -/
def create_item (file : FileState) (item : ItemCreate) (now : String) :
    FileState × Resp :=
  let data := load_data file
  let new_id := get_next_id data
  let new_item : DbRec :=
    { id := some new_id
      name := some item.name
      description := item.description
      price := some item.price
      created_at := now
      updated_at := now }
  (save_data (data ++ [new_item]), .created new_item)

/-- `GET /items` handler `get_all_items` (lines 89-93). -/
def get_all_items (file : FileState) : FileState × Resp :=
  (file, .items (load_data file))

/-- `GET /items/{item_id}` handler `get_item` (lines 95-104).  The
source's `if not item` test fires exactly when `next` returned `None`: a
record that matched `item.get('id') == item_id` has an `id` key, hence is
a non-empty (truthy) dict. -/
def get_item (file : FileState) (item_id : Int) : FileState × Resp :=
  let data := load_data file
  match data.find? (fun item => item.id == some item_id) with
  | none => (file, .notFound item_id)
  | some item => (file, .item item)

/-- `PUT /items/{item_id}` handler `update_item` (lines 106-125), after
FastAPI has validated the body: locate the first matching record, assign
each dumped field onto it, stamp `updated_at`, save. -/
def update_item (file : FileState) (item_id : Int) (item_update : ItemUpdate)
    (now : String) : FileState × Resp :=
  let data := load_data file
  match firstIdxWhere (fun item => item.id == some item_id) data with
  | none => (file, .notFound item_id)
  | some item_index =>
      let existing_item := data.getD item_index default
      let updated :=
        { (model_dump_exclude_unset item_update).foldl setKey existing_item with
            updated_at := now }
      (save_data (data.set item_index updated), .item updated)

/-- `PUT /items/{item_id}` including FastAPI's body validation: an invalid
body is rejected with 422 before the handler body runs. -/
def put_item_endpoint (file : FileState) (item_id : Int) (item_update : ItemUpdate)
    (now : String) : FileState × Resp :=
  if itemUpdateValid item_update then update_item file item_id item_update now
  else (file, .unprocessable)

/-- `DELETE /items/{item_id}` handler `delete_item` (lines 127-138). -/
def delete_item (file : FileState) (item_id : Int) : FileState × Resp :=
  let data := load_data file
  match firstIdxWhere (fun item => item.id == some item_id) data with
  | none => (file, .notFound item_id)
  | some item_index => (save_data (data.eraseIdx item_index), .noContent)

/-- `DELETE /items` handler `delete_all_items` (lines 140-144). -/
def delete_all_items (_file : FileState) : FileState × Resp :=
  (save_data [], .noContent)

/-! ## Helper lemmas -/

/-- The seed is below a left fold of `max`. -/
theorem le_foldl_max {α : Type} [LinearOrder α] (xs : List α) (x : α) :
    x ≤ xs.foldl max x := by
  induction xs generalizing x with
  | nil => exact le_refl x
  | cons a as ih => exact le_trans (le_max_left x a) (ih (max x a))

/-- Every member of `x :: xs` is below `xs.foldl max x` — the shape
`max(...)` takes on a nonempty Python list. -/
theorem le_foldl_max_of_mem {α : Type} [LinearOrder α] {xs : List α} {x y : α}
    (h : y ∈ x :: xs) : y ≤ xs.foldl max x := by
  induction xs generalizing x with
  | nil => simpa using le_of_eq (List.mem_singleton.1 h)
  | cons a as ih =>
      rcases List.mem_cons.1 h with rfl | h'
      · exact le_trans (le_max_left y a) (le_foldl_max as _)
      · rcases List.mem_cons.1 h' with rfl | h''
        · exact le_trans (le_max_right x y) (le_foldl_max as _)
        · exact ih (List.mem_cons_of_mem _ h'')

/-- A left fold of `max` is below any upper bound of the seed and list. -/
theorem foldl_max_le {α : Type} [LinearOrder α] {xs : List α} {x m : α}
    (hx : x ≤ m) (h : ∀ y ∈ xs, y ≤ m) : xs.foldl max x ≤ m := by
  induction xs generalizing x with
  | nil => exact hx
  | cons a as ih =>
      exact ih (max_le hx (h a (List.mem_cons_self _ _)))
        (fun y hy => h y (List.mem_cons_of_mem _ hy))

/-- A left fold of `max` over a nonempty list whose greatest member is `m`
equals `m`. -/
theorem foldl_max_eq {α : Type} [LinearOrder α] {xs : List α} {x m : α}
    (hmem : m ∈ x :: xs) (hub : ∀ y ∈ x :: xs, y ≤ m) : xs.foldl max x = m :=
  le_antisymm (foldl_max_le (hub x (List.mem_cons_self _ _))
    (fun y hy => hub y (List.mem_cons_of_mem _ hy))) (le_foldl_max_of_mem hmem)

/-- `firstIdxWhere` finds nothing when no element satisfies `p`. -/
theorem firstIdxWhere_eq_none {α : Type} {p : α → Bool} {l : List α}
    (h : ∀ a ∈ l, p a = false) : firstIdxWhere p l = none := by
  induction l with
  | nil => rfl
  | cons a as ih =>
      simp [firstIdxWhere, h a (List.mem_cons_self _ _),
        ih (fun b hb => h b (List.mem_cons_of_mem _ hb))]

/-- A successful `firstIdxWhere` returns an in-bounds index of an element
satisfying `p`, before which no element satisfies `p`. -/
theorem firstIdxWhere_some {α : Type} {p : α → Bool} {l : List α} {i : Nat}
    (h : firstIdxWhere p l = some i) :
    ∃ hi : i < l.length, p (l.get ⟨i, hi⟩) = true ∧
      ∀ j, (hj : j < i) → p (l.get ⟨j, lt_trans hj hi⟩) = false := by
  induction l generalizing i with
  | nil => exact absurd h (by simp [firstIdxWhere])
  | cons a as ih =>
      by_cases hpa : p a = true
      · have : some 0 = some i := by simpa [firstIdxWhere, hpa] using h
        obtain rfl : i = 0 := (Option.some_inj.1 this).symm
        exact ⟨Nat.succ_pos _, hpa, fun j hj => absurd hj (Nat.not_lt_zero j)⟩
      · have hpa' : p a = false := by simpa using hpa
        have h' : (firstIdxWhere p as).map (· + 1) = some i := by
          simpa [firstIdxWhere, hpa'] using h
        rcases Option.map_eq_some'.1 h' with ⟨i', hi', rfl⟩
        obtain ⟨hlt, hp, hmin⟩ := ih hi'
        refine ⟨Nat.succ_lt_succ hlt, hp, fun j hj => ?_⟩
        match j with
        | 0 => exact hpa'
        | k + 1 => exact hmin k (Nat.lt_of_succ_lt_succ hj)

/-- Converse: `firstIdxWhere` returns the index of the first element
satisfying `p`. -/
theorem firstIdxWhere_of_first {α : Type} {p : α → Bool} {l : List α} {i : Nat}
    (hi : i < l.length) (hp : p (l.get ⟨i, hi⟩) = true)
    (hmin : ∀ j, (hj : j < i) → p (l.get ⟨j, lt_trans hj hi⟩) = false) :
    firstIdxWhere p l = some i := by
  induction l generalizing i with
  | nil => exact absurd hi (by simp)
  | cons a as ih =>
      match i with
      | 0 => simp_all [firstIdxWhere]
      | k + 1 =>
          have hpa : p a = false := hmin 0 (Nat.succ_pos k)
          have : firstIdxWhere p as = some k :=
            ih (Nat.lt_of_succ_lt_succ hi) hp
              (fun j hj => hmin (j + 1) (Nat.succ_lt_succ hj))
          simp [firstIdxWhere, hpa, this]

/-- Any id present in the collection is strictly below `get_next_id`. -/
theorem lt_get_next_id {data : List DbRec} {r : DbRec} {i : Int}
    (hr : r ∈ data) (hid : r.id = some i) : i < get_next_id data := by
  match data, hr with
  | d :: ds, hr =>
      have hi : i = r.id.getD 0 := by simp [hid]
      have hmem : r.id.getD 0 ∈ (d :: ds).map (fun item => item.id.getD 0) :=
        List.mem_map_of_mem _ hr
      have hle : r.id.getD 0 ≤ (ds.map (fun item => item.id.getD 0)).foldl max (d.id.getD 0) := by
        simpa using le_foldl_max_of_mem (by simpa using hmem)
      have : get_next_id (d :: ds)
          = (ds.map (fun item => item.id.getD 0)).foldl max (d.id.getD 0) + 1 := rfl
      omega

/-- Updating an element to one with the same `f`-image leaves
`List.filterMap f` unchanged. -/
theorem filterMap_set_of_eq {α β : Type} (f : α → Option β) {l : List α} {i : Nat} {a : α}
    (h : ∀ hi : i < l.length, f a = f (l.get ⟨i, hi⟩)) :
    (l.set i a).filterMap f = l.filterMap f := by
  induction l generalizing i with
  | nil => rfl
  | cons b bs ih =>
      match i with
      | 0 =>
          have hfb : f a = f b := h (Nat.succ_pos _)
          simp [List.filterMap_cons, hfb]
      | k + 1 =>
          simp only [List.set_cons_succ, List.filterMap_cons]
          rw [ih (fun hk => h (Nat.succ_lt_succ hk))]

/-- Updating an element to one with the same `f`-image leaves
`List.map f` unchanged. -/
theorem map_set_of_eq {α β : Type} (f : α → β) {l : List α} {i : Nat} {a : α}
    (h : ∀ hi : i < l.length, f a = f (l.get ⟨i, hi⟩)) :
    (l.set i a).map f = l.map f := by
  induction l generalizing i with
  | nil => rfl
  | cons b bs ih =>
      match i with
      | 0 =>
          have hfb : f a = f b := h (Nat.succ_pos _)
          simp [hfb]
      | k + 1 =>
          simp only [List.set_cons_succ, List.map_cons]
          rw [ih (fun hk => h (Nat.succ_lt_succ hk))]

/-- Tri-state application of one dumped field onto the stored value:
an absent field keeps the old value, an explicit `null` stores `null`, a
value replaces it. -/
def applyFld {α : Type} (f : Fld α) (old : Option α) : Option α :=
  match f with
  | .unset => old
  | .null => none
  | .val v => some v

/-- The assignment loop over `model_dump(exclude_unset=True)` acts
per-field as `applyFld` and touches nothing else. -/
theorem foldl_setKey_dump (u : ItemUpdate) (r : DbRec) :
    (model_dump_exclude_unset u).foldl setKey r =
      { r with name := applyFld u.name r.name,
               description := applyFld u.description r.description,
               price := applyFld u.price r.price } := by
  obtain ⟨n, d, p⟩ := u
  cases n <;> cases d <;> cases p <;> rfl

/-- `getD` with an in-bounds index is `get`. -/
theorem getD_eq_get {α : Type} [Inhabited α] (l : List α) (i : Nat) (h : i < l.length) :
    l.getD i default = l.get ⟨i, h⟩ := by
  simp [List.getD, List.getElem?_eq_getElem h]

/-- A sample stored record, used to instantiate theorems on concrete data. -/
def sampleRec (i : Int) (nm : String) (pr : ℚ) : DbRec :=
  { id := some i, name := some nm, description := none, price := some pr,
    created_at := "T0", updated_at := "T0" }

/-- A sample stored record whose JSON object has no `id` key. -/
def noIdRec : DbRec :=
  { id := none, name := some "A", description := none, price := some 1,
    created_at := "T0", updated_at := "T0" }

/-! ## Claims -/

/-- C6 counterexample: two backing-file states refute the claim. A file
whose bytes are not valid UTF-8 cannot be parsed, yet `load_data` does
not return the empty collection — it surfaces an uncaught
`UnicodeDecodeError` (a `ValueError`, so the
`except (json.JSONDecodeError, IOError)` clause misses it). And a file
holding the parseable document `42`, which is not a structured document
of records, is returned verbatim instead of as the empty collection. -/
theorem load_data_not_recovering_counterexample :
    load_data_raw (some .notUtf8) = .error .unicodeDecodeError ∧
    (∀ v : JsonVal, load_data_raw (some .notUtf8) ≠ .ok v) ∧
    isRecordDoc (.num 42) = false ∧
    load_data_raw (some (.json (.num 42))) = .ok (.num 42) ∧
    JsonVal.num 42 ≠ .arr [] := by
  refine ⟨rfl, ?_, rfl, rfl, ?_⟩
  · intro v h
    exact nomatch h
  · intro h
    exact nomatch h

/-- C6 (amended): `load_data` returns the empty collection, with no
error, when the file is missing, when its text is not valid JSON, or
when reading fails with `IOError`; any parseable JSON document is
returned verbatim — even when it is not a document of records; and a
file whose bytes are not valid UTF-8 makes `load_data` raise an uncaught
`UnicodeDecodeError` rather than return a collection. -/
theorem load_data_raw_behavior :
    load_data_raw none = .ok (.arr []) ∧
    load_data_raw (some .notJson) = .ok (.arr []) ∧
    load_data_raw (some .readError) = .ok (.arr []) ∧
    (∀ j : JsonVal, load_data_raw (some (.json j)) = .ok j) ∧
    load_data_raw (some .notUtf8) = .error .unicodeDecodeError :=
  ⟨rfl, rfl, rfl, fun _ => rfl, rfl⟩

/-- C8: from any state of the backing file, `delete_all_items` persists
the empty collection unconditionally and returns 204 (no content), so a
following `GET /items` returns the empty sequence. -/
theorem delete_all_then_list_empty (file : FileState) :
    delete_all_items file = (.valid [], .noContent) ∧
    (get_all_items (delete_all_items file).1).2 = .items [] :=
  ⟨rfl, rfl⟩

/-- C3: for every file state, target id, request body and timestamp, the
update operation changes no record's `id` or `created_at`: projecting the
persisted collection to these two fields gives the same list before and
after. The request body cannot even mention them (`ItemUpdate` has only
`name`, `description`, `price`, and `model_dump` only yields model
fields). -/
theorem update_never_alters_id_created_at (file : FileState) (item_id : Int)
    (u : ItemUpdate) (now : String) :
    (load_data (update_item file item_id u now).1).map (fun r => (r.id, r.created_at))
      = (load_data file).map (fun r => (r.id, r.created_at)) := by
  cases hidx : firstIdxWhere (fun item => item.id == some item_id) (load_data file) with
  | none => simp only [update_item, hidx]
  | some i =>
      simp only [update_item]
      simp only [hidx]
      simp only [save_data, load_data]
      apply map_set_of_eq
      intro hi'
      rw [foldl_setKey_dump, getD_eq_get _ _ hi']

/-- C4: `get_next_id` returns `1` on the empty collection, and on a
nonempty collection in which every record carries an `id` key it returns
one more than the greatest id present. (Records without an `id` key are
the subject of C10.) -/
theorem get_next_id_one_plus_max :
    get_next_id [] = 1 ∧
    ∀ (data : List DbRec) (m : Int),
      (∃ r ∈ data, r.id = some m) →
      (∀ r ∈ data, ∀ i : Int, r.id = some i → i ≤ m) →
      (∀ r ∈ data, r.id.isSome) →
      get_next_id data = m + 1 := by
  refine ⟨rfl, ?_⟩
  rintro data m ⟨r, hr, hrm⟩ hub hall
  match data, hr with
  | d :: ds, hr =>
      have hmem' : m ∈ (d :: ds).map (fun item => item.id.getD 0) := by
        refine List.mem_map.2 ⟨r, hr, ?_⟩
        simp [hrm]
      have hub' : ∀ y ∈ (d :: ds).map (fun item => item.id.getD 0), y ≤ m := by
        rintro y hy
        rcases List.mem_map.1 hy with ⟨s, hs, rfl⟩
        rcases Option.isSome_iff_exists.1 (hall s hs) with ⟨j, hj⟩
        have := hub s hs j hj
        simp [hj, this]
      have heq : (ds.map (fun item => item.id.getD 0)).foldl max (d.id.getD 0) = m :=
        foldl_max_eq (by simpa using hmem') (by simpa using hub')
      have : get_next_id (d :: ds)
          = (ds.map (fun item => item.id.getD 0)).foldl max (d.id.getD 0) + 1 := rfl
      omega

/-- Witness for C4: on records with ids 5 and 2 the next id is 6. -/
theorem get_next_id_one_plus_max_witness :
    get_next_id [sampleRec 5 "A" 1, sampleRec 2 "B" 1] = 5 + 1 :=
  get_next_id_one_plus_max.2 [sampleRec 5 "A" 1, sampleRec 2 "B" 1] 5
    ⟨sampleRec 5 "A" 1, by simp, rfl⟩
    (by
      rintro r hr i hi
      rcases List.mem_cons.1 hr with rfl | hr'
      · simp_all [sampleRec]
      · simp_all [sampleRec]
        omega)
    (by rintro r hr; rcases List.mem_cons.1 hr with rfl | hr' <;> simp_all [sampleRec])

/-- C10 counterexample: on a loaded record carrying the (perfectly
parseable) id `-5`, `get_next_id` returns `-4`, which is less than 1 —
the claim's "the returned id is always at least 1" fails on loaded data
with negative ids. -/
theorem get_next_id_lt_one_counterexample :
    get_next_id [sampleRec (-5) "A" 1] = -4 ∧ ¬ (1 : Int) ≤ -4 := by
  exact ⟨rfl, by decide⟩

/-- C10 (amended): `get_next_id` is total; a record lacking the `id` key
is treated exactly as one whose id is 0; and the returned id is at least
1 whenever the collection is empty or contains some record lacking the
`id` key (it can fall below 1 only when every record has an id and all
ids are negative, as in the counterexample). -/
theorem get_next_id_total_amended :
    (∀ data : List DbRec,
        get_next_id data
          = get_next_id (data.map (fun r => { r with id := some (r.id.getD 0) }))) ∧
    (∀ data : List DbRec,
        (data = [] ∨ ∃ r ∈ data, r.id = none) → 1 ≤ get_next_id data) := by
  constructor
  · intro data
    have hmap : (data.map (fun r => { r with id := some (r.id.getD 0) } : DbRec → DbRec)).map
          (fun item => item.id.getD 0)
        = data.map (fun item => item.id.getD 0) := by
      rw [List.map_map]
      exact List.map_congr_left (fun r _ => rfl)
    unfold get_next_id
    rw [hmap]
  · rintro data (rfl | ⟨r, hr, hid⟩)
    · exact le_refl 1
    · match data, hr with
      | d :: ds, hr =>
          have h0 : (0 : Int) ∈ (d :: ds).map (fun item => item.id.getD 0) := by
            refine List.mem_map.2 ⟨r, hr, ?_⟩
            simp [hid]
          have hle : (0 : Int) ≤ (ds.map (fun item => item.id.getD 0)).foldl max (d.id.getD 0) :=
            le_foldl_max_of_mem (by simpa using h0)
          have : get_next_id (d :: ds)
              = (ds.map (fun item => item.id.getD 0)).foldl max (d.id.getD 0) + 1 := rfl
          omega

/-- Witness for C10 (amended): a collection whose only record lacks the
`id` key gets next id 1. -/
theorem get_next_id_total_amended_witness :
    1 ≤ get_next_id [noIdRec] :=
  get_next_id_total_amended.2 _
    (Or.inr ⟨noIdRec, List.mem_cons_self _ _, rfl⟩)

/-- C2: a get, update or delete naming an id that matches no loaded
record returns the 404 not-found outcome and leaves the backing file
exactly as it was — nothing is mutated and nothing is saved (had the
handler saved, an absent or corrupt file would have become a valid one). -/
theorem not_found_no_mutation (file : FileState) (item_id : Int)
    (u : ItemUpdate) (now : String)
    (h : ∀ r ∈ load_data file, r.id ≠ some item_id) :
    get_item file item_id = (file, .notFound item_id) ∧
    update_item file item_id u now = (file, .notFound item_id) ∧
    delete_item file item_id = (file, .notFound item_id) := by
  have hfalse : ∀ r ∈ load_data file, (r.id == some item_id) = false :=
    fun r hr => beq_eq_false_iff_ne.2 (h r hr)
  have hfind : (load_data file).find? (fun item => item.id == some item_id) = none :=
    List.find?_eq_none.2 (fun r hr => by simp [hfalse r hr])
  have hidx : firstIdxWhere (fun item => item.id == some item_id) (load_data file) = none :=
    firstIdxWhere_eq_none hfalse
  refine ⟨?_, ?_, ?_⟩
  · simp only [get_item, hfind]
  · simp only [update_item, hidx]
  · simp only [delete_item, hidx]

/-- Witness for C2: id 2 matches nothing in a one-record collection. -/
theorem not_found_no_mutation_witness :
    get_item (.valid [sampleRec 1 "Widget" 10]) 2
        = (.valid [sampleRec 1 "Widget" 10], .notFound 2) ∧
    update_item (.valid [sampleRec 1 "Widget" 10]) 2
        { name := .unset, description := .unset, price := .unset } "T1"
        = (.valid [sampleRec 1 "Widget" 10], .notFound 2) ∧
    delete_item (.valid [sampleRec 1 "Widget" 10]) 2
        = (.valid [sampleRec 1 "Widget" 10], .notFound 2) :=
  not_found_no_mutation _ 2 { name := .unset, description := .unset, price := .unset }
    "T1" (by
      intro r hr
      rcases List.mem_cons.1 hr with rfl | h'
      · simp [sampleRec]
      · simp at h')

/-- C9: a delete whose id matches the record at position `i` (and none
before it) removes exactly that record: the persisted collection is the
records before `i` followed by the records after `i`, in their original
order, and the length drops by exactly one. -/
theorem delete_removes_first_match (data : List DbRec) (item_id : Int) (i : Nat)
    (hi : i < data.length)
    (hmatch : (data.get ⟨i, hi⟩).id = some item_id)
    (hfirst : ∀ j, (hj : j < i) → (data.get ⟨j, lt_trans hj hi⟩).id ≠ some item_id) :
    delete_item (.valid data) item_id
      = (.valid (data.take i ++ data.drop (i + 1)), .noContent) ∧
    (data.take i ++ data.drop (i + 1)).length + 1 = data.length := by
  have hidx : firstIdxWhere (fun item => item.id == some item_id) data = some i :=
    firstIdxWhere_of_first hi (by simpa using hmatch) (fun j hj => by simpa using hfirst j hj)
  constructor
  · simp only [delete_item, load_data]
    simp only [hidx]
    rw [List.eraseIdx_eq_take_drop_succ]
    rfl
  · simp only [List.length_append, List.length_take, List.length_drop]
    omega

/-- Witness for C9: deleting id 2 from a two-record collection removes
the second record only. -/
theorem delete_removes_first_match_witness :
    delete_item (.valid [sampleRec 1 "A" 1, sampleRec 2 "B" 2]) 2
      = (.valid ([sampleRec 1 "A" 1, sampleRec 2 "B" 2].take 1
          ++ [sampleRec 1 "A" 1, sampleRec 2 "B" 2].drop 2), .noContent) ∧
    ([sampleRec 1 "A" 1, sampleRec 2 "B" 2].take 1
        ++ [sampleRec 1 "A" 1, sampleRec 2 "B" 2].drop 2).length + 1
      = [sampleRec 1 "A" 1, sampleRec 2 "B" 2].length :=
  delete_removes_first_match [sampleRec 1 "A" 1, sampleRec 2 "B" 2] 2 1
    (by decide)
    (by simp [sampleRec])
    (by
      intro j hj
      match j, hj with
      | 0, _ => simp [sampleRec])

/-- The ids present in the stored collection, in storage order. -/
def recIds (data : List DbRec) : List Int :=
  data.filterMap DbRec.id

/-- C5: the id assigned by a create is strictly greater than every id
present in the collection at that moment (hence, along any sequence of
creates, each assigned id exceeds the then-current maximum), and every
operation preserves uniqueness of the ids in the persisted collection. -/
theorem ids_unique_and_create_fresh :
    (∀ (file : FileState) (item : ItemCreate) (now : String),
        ∃ newId : Int,
          (create_item file item now).2
              = .created
                  { id := some newId, name := some item.name,
                    description := item.description, price := some item.price,
                    created_at := now, updated_at := now } ∧
          ∀ r ∈ load_data file, ∀ i : Int, r.id = some i → i < newId) ∧
    (∀ (file : FileState) (item : ItemCreate) (now : String),
        (recIds (load_data file)).Nodup →
        (recIds (load_data (create_item file item now).1)).Nodup) ∧
    (∀ (file : FileState) (item_id : Int) (u : ItemUpdate) (now : String),
        (recIds (load_data file)).Nodup →
        (recIds (load_data (update_item file item_id u now).1)).Nodup) ∧
    (∀ (file : FileState) (item_id : Int),
        (recIds (load_data file)).Nodup →
        (recIds (load_data (delete_item file item_id).1)).Nodup ∧
        (recIds (load_data (get_item file item_id).1)).Nodup) ∧
    (∀ file : FileState, (recIds (load_data (delete_all_items file).1)).Nodup) ∧
    (∀ file : FileState,
        (recIds (load_data file)).Nodup →
        (recIds (load_data (get_all_items file).1)).Nodup) := by
  refine ⟨?_, ?_, ?_, ?_, ?_, ?_⟩
  · intro file item now
    exact ⟨get_next_id (load_data file), rfl,
      fun r hr i hid => lt_get_next_id hr hid⟩
  · intro file item now hnd
    have : recIds (load_data (create_item file item now).1)
        = recIds (load_data file) ++ [get_next_id (load_data file)] := by
      simp [create_item, save_data, load_data, recIds, List.filterMap_append,
        List.filterMap_cons]
    rw [this]
    simp only [List.nodup_append]
    refine ⟨hnd, List.nodup_singleton _, ?_⟩
    intro a ha
    rcases List.mem_filterMap.1 ha with ⟨r, hr, hid⟩
    have := lt_get_next_id hr hid
    simp only [List.mem_singleton]
    omega
  · intro file item_id u now hnd
    cases hidx : firstIdxWhere (fun item => item.id == some item_id) (load_data file) with
    | none => simpa [update_item, hidx] using hnd
    | some i =>
        simp only [update_item]
        simp only [hidx]
        simp only [save_data, load_data, recIds]
        rw [filterMap_set_of_eq]
        · exact hnd
        · intro hi'
          rw [foldl_setKey_dump, getD_eq_get _ _ hi']
  · intro file item_id
    refine fun hnd => ⟨?_, ?_⟩
    · cases hidx : firstIdxWhere (fun item => item.id == some item_id) (load_data file) with
      | none => simpa [delete_item, hidx] using hnd
      | some i =>
          simp only [delete_item]
          simp only [hidx]
          simp only [save_data, load_data, recIds]
          exact hnd.sublist ((List.eraseIdx_sublist _ i).filterMap _)
    · cases hfind : (load_data file).find? (fun item => item.id == some item_id) with
      | none => simpa [get_item, hfind] using hnd
      | some r => simpa [get_item, hfind] using hnd
  · intro file
    simp [delete_all_items, save_data, load_data, recIds]
  · intro file hnd
    simpa [get_all_items] using hnd

/-- Witness for C5: creating into a collection with ids 1 and 3 keeps the
persisted ids unique. -/
theorem ids_unique_and_create_fresh_witness :
    (recIds (load_data (create_item (.valid [sampleRec 1 "A" 1, sampleRec 3 "B" 2])
        { name := "Gadget", description := none, price := 5 } "T1").1)).Nodup :=
  ids_unique_and_create_fresh.2.1 (.valid [sampleRec 1 "A" 1, sampleRec 3 "B" 2])
    { name := "Gadget", description := none, price := 5 } "T1" (by decide)

/-- C1 counterexample: `PUT /items/1` with body `{"name": null}` on a
record named "Widget". The `Item` data model does not permit a null
`name` (it is a required `str`), and create's constraints reject null
names, yet pydantic accepts the explicit null against
`Optional[str] = Field(None, min_length=1, ...)`, `exclude_unset` keeps
it, and the handler persists `name = null` — the request is not rejected
and the field that permits no null is applied as null. -/
theorem update_null_name_applied_counterexample :
    put_item_endpoint (.valid [sampleRec 1 "Widget" 10]) 1
        { name := .null, description := .unset, price := .unset } "T1"
      = (.valid [{ sampleRec 1 "Widget" 10 with name := none, updated_at := "T1" }],
          .item { sampleRec 1 "Widget" 10 with name := none, updated_at := "T1" }) ∧
    ({ sampleRec 1 "Widget" 10 with name := none, updated_at := "T1" } : DbRec).name
      = none :=
  ⟨rfl, rfl⟩

/-- C1 (amended): for an update reaching an existing record (first match
on the id), exactly the fields present in the request body are applied:
an omitted field keeps its previous value, a field explicitly set to null
is applied as null — for every field, including `name` and `price`, which
the `Item` model does not permit to be null — a supplied non-null value
replaces the old one and satisfies create's constraint for that field,
`updated_at` becomes the current time, `id` and `created_at` are
untouched, and no other record changes. In particular an update supplying
only `price` leaves `name` and `description` unchanged. -/
theorem update_partial_field_semantics (data : List DbRec) (item_id : Int)
    (u : ItemUpdate) (now : String) (i : Nat)
    (hi : i < data.length)
    (hmatch : (data.get ⟨i, hi⟩).id = some item_id)
    (hfirst : ∀ j, (hj : j < i) → (data.get ⟨j, lt_trans hj hi⟩).id ≠ some item_id)
    (hvalid : itemUpdateValid u = true) :
    ∃ r' : DbRec,
      put_item_endpoint (.valid data) item_id u now
          = (.valid (data.set i r'), .item r') ∧
      (u.name = .unset → r'.name = (data.get ⟨i, hi⟩).name) ∧
      (u.name = .null → r'.name = none) ∧
      (∀ s, u.name = .val s → r'.name = some s ∧ nameOk s = true) ∧
      (u.description = .unset → r'.description = (data.get ⟨i, hi⟩).description) ∧
      (u.description = .null → r'.description = none) ∧
      (∀ s, u.description = .val s → r'.description = some s ∧ descriptionOk s = true) ∧
      (u.price = .unset → r'.price = (data.get ⟨i, hi⟩).price) ∧
      (u.price = .null → r'.price = none) ∧
      (∀ q, u.price = .val q → r'.price = some q ∧ priceOk q = true) ∧
      r'.id = (data.get ⟨i, hi⟩).id ∧
      r'.created_at = (data.get ⟨i, hi⟩).created_at ∧
      r'.updated_at = now := by
  have hidx : firstIdxWhere (fun item => item.id == some item_id) data = some i :=
    firstIdxWhere_of_first hi (by simpa using hmatch) (fun j hj => by simpa using hfirst j hj)
  have hval' := hvalid
  simp only [itemUpdateValid, Bool.and_eq_true] at hval'
  obtain ⟨⟨hn, hd⟩, hp⟩ := hval'
  refine ⟨{ (model_dump_exclude_unset u).foldl setKey (data.getD i default) with
      updated_at := now }, ?_, ?_, ?_, ?_, ?_, ?_, ?_, ?_, ?_, ?_, ?_, ?_, ?_⟩
  · simp only [put_item_endpoint, hvalid, if_true, update_item, load_data]
    simp only [hidx, save_data]
  · intro h
    rw [foldl_setKey_dump, getD_eq_get _ _ hi]
    simp [applyFld, h]
  · intro h
    rw [foldl_setKey_dump]
    simp [applyFld, h]
  · intro s h
    refine ⟨?_, ?_⟩
    · rw [foldl_setKey_dump]
      simp [applyFld, h]
    · rw [h] at hn
      simpa [fldOk] using hn
  · intro h
    rw [foldl_setKey_dump, getD_eq_get _ _ hi]
    simp [applyFld, h]
  · intro h
    rw [foldl_setKey_dump]
    simp [applyFld, h]
  · intro s h
    refine ⟨?_, ?_⟩
    · rw [foldl_setKey_dump]
      simp [applyFld, h]
    · rw [h] at hd
      simpa [fldOk] using hd
  · intro h
    rw [foldl_setKey_dump, getD_eq_get _ _ hi]
    simp [applyFld, h]
  · intro h
    rw [foldl_setKey_dump]
    simp [applyFld, h]
  · intro q h
    refine ⟨?_, ?_⟩
    · rw [foldl_setKey_dump]
      simp [applyFld, h]
    · rw [h] at hp
      simpa [fldOk] using hp
  · rw [foldl_setKey_dump, getD_eq_get _ _ hi]
  · rw [foldl_setKey_dump, getD_eq_get _ _ hi]
  · rfl

/-- Witness for C1 (amended): the spec's own scenario — update supplying
only `price := 12.5` on the record named "Widget" priced 9.99 leaves
`name`, `description`, `id` and `created_at` unchanged and restamps
`updated_at`. -/
theorem update_partial_field_semantics_witness :
    ∃ r' : DbRec,
      put_item_endpoint (.valid [sampleRec 1 "Widget" (999/100)]) 1
          { name := .unset, description := .unset, price := .val (25/2) } "T1"
          = (.valid ([sampleRec 1 "Widget" (999/100)].set 0 r'), .item r') ∧
      r'.name = some "Widget" ∧ r'.description = none ∧ r'.price = some (25/2) ∧
      r'.id = some 1 ∧ r'.created_at = "T0" ∧ r'.updated_at = "T1" := by
  obtain ⟨r', h1, hnu, hnn, hnv, hdu, hdn, hdv, hpu, hpn, hpv, hid, hcr, hup⟩ :=
    update_partial_field_semantics [sampleRec 1 "Widget" (999/100)] 1
      { name := .unset, description := .unset, price := .val (25/2) } "T1" 0
      (by decide) (by simp [sampleRec]) (fun j hj => absurd hj (Nat.not_lt_zero j))
      (by norm_num [itemUpdateValid, fldOk, priceOk])
  refine ⟨r', h1, ?_, ?_, (hpv _ rfl).1, ?_, ?_, hup⟩
  · simpa [sampleRec] using hnu rfl
  · simpa [sampleRec] using hdu rfl
  · simpa [sampleRec] using hid
  · simpa [sampleRec] using hcr

/-- C7 counterexample: saving one record over a previously
empty-collection file passes through the truncated in-place state, which
is neither the old file state nor the new one — a partial-write state is
externally observable mid-save (the source writes `open(DATA_FILE, 'w')`
in place, with no temp-file-and-rename or equivalent). -/
theorem save_not_atomic_counterexample :
    FileState.corrupt ∈ save_data_trace [sampleRec 1 "Widget" 10] ∧
    FileState.corrupt ≠ .valid [] ∧
    FileState.corrupt ≠ .valid [sampleRec 1 "Widget" 10] ∧
    load_data .corrupt = [] :=
  ⟨List.mem_cons_self _ _, by simp, by simp, rfl⟩

/-- C7 (amended): a completed save overwrites the file with exactly the
new collection, and every file state observable while the save runs —
including the truncated mid-write state — is one `load_data` recovers
from, reading it as the empty collection or as the full new collection;
an interruption never leaves the file in a state `load_data` cannot
handle. The save is not atomic, as the counterexample shows. -/
theorem save_overwrites_and_interruption_recoverable (data : List DbRec)
    (s : FileState) (hs : s ∈ save_data_trace data) :
    load_data (save_data data) = data ∧ (load_data s = [] ∨ load_data s = data) := by
  refine ⟨rfl, ?_⟩
  rcases List.mem_cons.1 hs with rfl | hs'
  · exact Or.inl rfl
  · rcases List.mem_singleton.1 hs' with rfl
    exact Or.inr rfl

/-- Witness for C7 (amended): the truncated mid-write state of a
one-record save loads as the empty collection. -/
theorem save_overwrites_and_interruption_recoverable_witness :
    load_data (save_data [sampleRec 1 "Widget" 10]) = [sampleRec 1 "Widget" 10] ∧
    (load_data .corrupt = [] ∨ load_data .corrupt = [sampleRec 1 "Widget" 10]) :=
  save_overwrites_and_interruption_recoverable [sampleRec 1 "Widget" 10] .corrupt
    (List.mem_cons_self _ _)

end CrudService
